import Mathlib

/-!
Verification of the rust-dhcp repository against its specification.

The repository sources available under src/ are:
  src/protocol/src/message/operation_code.rs  (OperationCode and From<u8>)
  src/server/src/storage.rs                   (storage Error enum and Storage trait)
  src/server/src/message/ack.rs               (Ack struct)
  src/client/examples/client.rs               (example entry point)
  src/arp/src/windows.rs                      (ARP adapter)

The message codec, the Lease type, and the two protocol engines are parts of
this repository that are not under src/; where a claim depends on them they
are modelled from the specification, and each such definition is marked with
a doc comment starting with "Modelled from the spec:".

Conventions of the embedding:
  bytes are Nat values with explicit < 256 bounds where they matter;
  Rust u32 / u16 fields are Nat with < 2^32 / < 2^16 bounds in well-formedness
  predicates (or Fin where the claim is about the width itself);
  Ipv4Addr is embedded as its 32-bit numeric value (a Nat below 2^32);
  Rust Result<T, E> is Except E T; methods taking &mut self are embedded in
  state-passing style, returning the new state; methods taking &self do not
  return a state.
-/

namespace DhcpSpec

/-- IPv4 address, embedded as its 32-bit numeric value. -/
abbrev Ipv4 := Nat

/-- Client identity as stored: an opaque byte string (Vec<u8> in storage.rs). -/
abbrev ClientId := List Nat

/-- Big-endian encoding of a natural number into exactly w bytes. -/
def natToBytesBE : Nat → Nat → List Nat
  | 0, _ => []
  | w + 1, n => natToBytesBE w (n / 256) ++ [n % 256]

/-- Big-endian decoding of a byte list back to a natural number. -/
def bytesToNatBE (bs : List Nat) : Nat :=
  bs.foldl (fun acc b => acc * 256 + b) 0

/-- DHCP opcode, as declared in operation_code.rs. -/
inductive OperationCode where
  | Undefined
  | BootRequest
  | BootReply
deriving DecidableEq, Repr

/-- Embedding of `impl From<u8> for OperationCode` (operation_code.rs lines 13-22):
1 maps to BootRequest, 2 to BootReply, every other value to Undefined. -/
def OperationCode.fromU8 (value : Nat) : OperationCode :=
  match value with
  | 1 => .BootRequest
  | 2 => .BootReply
  | _ => .Undefined

/-- Modelled from the spec: the byte emitted for an opcode on encoding (the
encoder is not under src/); the inverse of From<u8> on the named opcodes,
with Undefined serialized as 0. -/
def OperationCode.toU8 : OperationCode → Nat
  | .Undefined => 0
  | .BootRequest => 1
  | .BootReply => 2

/-- Modelled from the spec: the codec error taxonomy of section 7. The spec
names Truncated explicitly; TooShort covers buffers shorter than the fixed
BOOTP header and InvalidMagicCookie a malformed option-area cookie. -/
inductive CodecError where
  | TooShort
  | InvalidMagicCookie
  | Truncated
deriving DecidableEq, Repr

/-- Modelled from the spec: one entry of the option TLV stream, "(code: u8,
raw bytes)" (section 3); the codec source is not under src/. -/
structure OptionField where
  code : Nat
  value : List Nat
deriving DecidableEq, Repr

/-- Modelled from the spec: the Message value of sections 3 and 6; the message
source is not under src/. Fixed-size text and hardware-address fields are kept
at their wire widths (lengths fixed by wellFormed below); the broadcast flag
is the high bit of the 2-byte flags field. -/
structure Message where
  op : OperationCode
  htype : Nat
  hlen : Nat
  hops : Nat
  xid : Nat
  secs : Nat
  broadcast : Bool
  ciaddr : Ipv4
  yiaddr : Ipv4
  siaddr : Ipv4
  giaddr : Ipv4
  chaddr : List Nat
  sname : List Nat
  file : List Nat
  options : List OptionField
deriving DecidableEq, Repr

/-- Size in bytes of the fixed BOOTP header (section 6):
1+1+1+1+4+2+2+4+4+4+4+16+64+128 = 236. -/
def bootpHeaderSize : Nat := 236

/-- The 4-byte magic cookie opening the option area. -/
def magicCookie : List Nat := [99, 130, 83, 99]

/-- The option-area pad code, silently skipped while parsing. -/
def padCode : Nat := 0

/-- The option-area end code terminating the option stream. -/
def endCode : Nat := 255

/-- Modelled from the spec: serialization of the option stream, "(code:1B,
len:1B, value:len bytes)* terminated by an end-code" (section 6), options in
the order supplied (section 4.1). -/
def encodeOptions (opts : List OptionField) : List Nat :=
  (opts.flatMap fun o => o.code :: o.value.length :: o.value) ++ [endCode]

/-- Modelled from the spec: the wire encoder of section 4.1, emitting the
fixed-size header fields at their canonical byte offsets (section 6), then the
magic cookie, then the options, then the terminator. -/
def encode (m : Message) : List Nat :=
  [m.op.toU8] ++ [m.htype] ++ [m.hlen] ++ [m.hops] ++
  natToBytesBE 4 m.xid ++ natToBytesBE 2 m.secs ++
  [if m.broadcast then 128 else 0, 0] ++
  natToBytesBE 4 m.ciaddr ++ natToBytesBE 4 m.yiaddr ++
  natToBytesBE 4 m.siaddr ++ natToBytesBE 4 m.giaddr ++
  m.chaddr ++ m.sname ++ m.file ++
  magicCookie ++ encodeOptions m.options

/-- Modelled from the spec: the option-stream parser of section 4.1. Parsing
stops at the terminator code, silently skips pad codes, and an option whose
declared length runs past the buffer end is a CodecError.Truncated. -/
def parseOptions (stream : List Nat) : Except CodecError (List OptionField) :=
  match stream with
  | [] => .ok []
  | c :: rest =>
    if c = padCode then parseOptions rest
    else if c = endCode then .ok []
    else
      match rest with
      | [] => .error .Truncated
      | len :: tail =>
        if len ≤ tail.length then
          match parseOptions (tail.drop len) with
          | .ok opts => .ok (⟨c, tail.take len⟩ :: opts)
          | .error e => .error e
        else .error .Truncated
termination_by stream.length
decreasing_by
  · simp
  · simp [List.length_drop]
    omega

/-- Bytes of the buffer at a fixed offset and width. -/
def fieldAt (buf : List Nat) (off width : Nat) : List Nat :=
  (buf.drop off).take width

/-- Modelled from the spec: the wire decoder of section 4.1. Buffers shorter
than the fixed BOOTP header are rejected; header fields are read at their
canonical byte offsets of section 6; the option area must open with the magic
cookie and is parsed by parseOptions. The function is total: every byte list
is mapped to a Message or a CodecError. -/
def decode (buf : List Nat) : Except CodecError Message :=
  if buf.length < bootpHeaderSize then .error .TooShort
  else if (buf.drop bootpHeaderSize).take 4 ≠ magicCookie then
    .error .InvalidMagicCookie
  else
    match parseOptions ((buf.drop bootpHeaderSize).drop 4) with
    | .error e => .error e
    | .ok opts =>
      .ok {
        op := OperationCode.fromU8 (bytesToNatBE (fieldAt buf 0 1))
        htype := bytesToNatBE (fieldAt buf 1 1)
        hlen := bytesToNatBE (fieldAt buf 2 1)
        hops := bytesToNatBE (fieldAt buf 3 1)
        xid := bytesToNatBE (fieldAt buf 4 4)
        secs := bytesToNatBE (fieldAt buf 8 2)
        broadcast := Nat.testBit (bytesToNatBE (fieldAt buf 10 1)) 7
        ciaddr := bytesToNatBE (fieldAt buf 12 4)
        yiaddr := bytesToNatBE (fieldAt buf 16 4)
        siaddr := bytesToNatBE (fieldAt buf 20 4)
        giaddr := bytesToNatBE (fieldAt buf 24 4)
        chaddr := fieldAt buf 28 16
        sname := fieldAt buf 44 64
        file := fieldAt buf 108 128
        options := opts }

/-- Well-formedness of one option: its code is a real option code (a byte that
is neither the pad nor the end code) and its value fits the 1-byte length
field, with byte-valued contents. -/
def OptionField.wellFormed (o : OptionField) : Prop :=
  0 < o.code ∧ o.code < 255 ∧ o.value.length ≤ 255 ∧ ∀ b ∈ o.value, b < 256

instance (o : OptionField) : Decidable o.wellFormed := by
  unfold OptionField.wellFormed; infer_instance

/-- Well-formedness of a Message: the range and width constraints that the
Rust field types (u8/u16/u32, fixed arrays) enforce at the type level, plus
option well-formedness. -/
def Message.wellFormed (m : Message) : Prop :=
  m.htype < 256 ∧ m.hlen < 256 ∧ m.hops < 256 ∧
  m.xid < 256 ^ 4 ∧ m.secs < 256 ^ 2 ∧
  m.ciaddr < 256 ^ 4 ∧ m.yiaddr < 256 ^ 4 ∧
  m.siaddr < 256 ^ 4 ∧ m.giaddr < 256 ^ 4 ∧
  m.chaddr.length = 16 ∧ (∀ b ∈ m.chaddr, b < 256) ∧
  m.sname.length = 64 ∧ (∀ b ∈ m.sname, b < 256) ∧
  m.file.length = 128 ∧ (∀ b ∈ m.file, b < 256) ∧
  ∀ o ∈ m.options, o.wellFormed

instance (m : Message) : Decidable m.wellFormed := by
  unfold Message.wellFormed; infer_instance

/-- A concrete well-formed DISCOVER-shaped message used by witnesses. -/
def sampleMessage : Message where
  op := .BootRequest
  htype := 1
  hlen := 6
  hops := 0
  xid := 305419896
  secs := 0
  broadcast := true
  ciaddr := 0
  yiaddr := 0
  siaddr := 0
  giaddr := 0
  chaddr := List.replicate 16 0
  sname := List.replicate 64 0
  file := List.replicate 128 0
  options := [⟨53, [1]⟩, ⟨50, [10, 0, 0, 10]⟩]

/-- Embedding of the storage Error enum (storage.rs lines 8-31): one variant
per storage operation plus the catch-all Other, each carrying the description
string. -/
inductive StorageError where
  | GetClient (desc : String)
  | AddClient (desc : String)
  | DeleteClient (desc : String)
  | GetLease (desc : String)
  | AddLease (desc : String)
  | UpdateLease (desc : String)
  | CheckFrozen (desc : String)
  | AddFrozen (desc : String)
  | Other (desc : String)
deriving DecidableEq, Repr

/-- Constructor of the storage error with the given kind index, the kinds
enumerated in declaration order of the Rust enum. -/
def mkStorageError : Fin 9 → String → StorageError
  | 0, s => .GetClient s
  | 1, s => .AddClient s
  | 2, s => .DeleteClient s
  | 3, s => .GetLease s
  | 4, s => .AddLease s
  | 5, s => .UpdateLease s
  | 6, s => .CheckFrozen s
  | 7, s => .AddFrozen s
  | 8, s => .Other s

/-- Kind index of a storage error, inverse to mkStorageError on kinds. -/
def StorageError.kindOf : StorageError → Fin 9
  | .GetClient _ => 0
  | .AddClient _ => 1
  | .DeleteClient _ => 2
  | .GetLease _ => 3
  | .AddLease _ => 4
  | .UpdateLease _ => 5
  | .CheckFrozen _ => 6
  | .AddFrozen _ => 7
  | .Other _ => 8

/-- Description string carried by a storage error. -/
def StorageError.descOf : StorageError → String
  | .GetClient s => s
  | .AddClient s => s
  | .DeleteClient s => s
  | .GetLease s => s
  | .AddLease s => s
  | .UpdateLease s => s
  | .CheckFrozen s => s
  | .AddFrozen s => s
  | .Other s => s

/-- Modelled from the spec: the Lease value of section 3 — client_id, leased
address, lease_time in seconds (u32), and lease-start timestamp; the lease
crate referenced by storage.rs is not under src/. -/
structure Lease where
  client_id : ClientId
  address : Ipv4
  lease_time : Nat
  lease_start : Nat
deriving DecidableEq, Repr

/-- Embedding of the Ack struct (src/server/src/message/ack.rs): the leased
address, the lease time as a 32-bit unsigned integer (Fin (2^32) embeds u32),
and the human-readable diagnostic message. -/
structure Ack where
  address : Ipv4
  lease_time : Fin 4294967296
  message : String

/-- Embedding of the Storage trait (storage.rs lines 36-124): the eight
operations of the collaborator contract with their result shapes, in
state-passing style over an abstract state type S. A method taking &mut self
and returning Result<T, Error> becomes a function returning
Except StorageError (S × T) (with T = Unit elided to S alone); a method
taking &self returns Except StorageError T with no state, which is the Rust
guarantee that a shared borrow cannot mutate the receiver. The update_lease
mutator is taken in the pure form the spec recommends; its source type is
examined separately by MutatorSrc below. -/
structure Storage (S : Type) where
  get_client : S → Ipv4 → Except StorageError (Option ClientId)
  add_client : S → Ipv4 → ClientId → Except StorageError S
  delete_client : S → Ipv4 → Except StorageError S
  get_lease : S → ClientId → Except StorageError (Option Lease)
  add_lease : S → ClientId → Lease → Except StorageError S
  update_lease : S → ClientId → (Lease → Lease) → Except StorageError (S × Option Lease)
  check_frozen : S → Ipv4 → Except StorageError Bool
  add_frozen : S → Ipv4 → Except StorageError S

/-- State of the in-memory reference storage: the address-to-client map, the
leases keyed by client identity, and the frozen-address set. -/
structure MemState where
  clients : List (Ipv4 × ClientId)
  leases : List Lease
  frozen : List Ipv4
deriving DecidableEq, Repr

/-- The empty storage state. -/
def MemState.empty : MemState := ⟨[], [], []⟩

/-- An in-memory reference implementation of the Storage contract, used to
witness theorems quantified over storage implementations. -/
def memStorage : Storage MemState where
  get_client s a := .ok ((s.clients.find? fun p => p.1 = a).map Prod.snd)
  add_client s a cid := .ok { s with clients := (a, cid) :: s.clients }
  delete_client s a := .ok { s with clients := s.clients.filter fun p => p.1 ≠ a }
  get_lease s cid := .ok (s.leases.find? fun l => l.client_id = cid)
  add_lease s _cid l := .ok { s with leases := l :: s.leases }
  update_lease s cid f :=
    .ok ({ s with leases := s.leases.map fun l =>
            if l.client_id = cid then f l else l },
         (s.leases.find? fun l => l.client_id = cid).map f)
  check_frozen s a := .ok (s.frozen.contains a)
  add_frozen s a := .ok { s with frozen := a :: s.frozen }

/-- One invocation of the storage contract, used to state frame properties
uniformly over the eight operations. -/
inductive StorageOp where
  | getClient (a : Ipv4)
  | addClient (a : Ipv4) (cid : ClientId)
  | deleteClient (a : Ipv4)
  | getLease (cid : ClientId)
  | addLease (cid : ClientId) (l : Lease)
  | updateLease (cid : ClientId) (f : Lease → Lease)
  | checkFrozen (a : Ipv4)
  | addFrozen (a : Ipv4)

/-- Read operations are the three &self methods of the trait: get_client,
get_lease and check_frozen. -/
def StorageOp.isRead : StorageOp → Bool
  | .getClient _ => true
  | .getLease _ => true
  | .checkFrozen _ => true
  | _ => false

/-- Result value of one storage invocation. -/
inductive StorageValue where
  | unit
  | clientId (v : Option ClientId)
  | lease (v : Option Lease)
  | bool (b : Bool)

/-- Running one operation against a storage implementation: &self methods
leave the state as it was, &mut self methods continue with the state the
implementation returns. -/
def runOp {S : Type} (st : Storage S) (op : StorageOp) (s : S) :
    Except StorageError (S × StorageValue) :=
  match op with
  | .getClient a => (st.get_client s a).map fun v => (s, .clientId v)
  | .addClient a cid => (st.add_client s a cid).map fun s2 => (s2, .unit)
  | .deleteClient a => (st.delete_client s a).map fun s2 => (s2, .unit)
  | .getLease cid => (st.get_lease s cid).map fun v => (s, .lease v)
  | .addLease cid l => (st.add_lease s cid l).map fun s2 => (s2, .unit)
  | .updateLease cid f => (st.update_lease s cid f).map fun p => (p.1, .lease p.2)
  | .checkFrozen a => (st.check_frozen s a).map fun b => (s, .bool b)
  | .addFrozen a => (st.add_frozen s a).map fun s2 => (s2, .unit)

/-- Modelled from the spec: the REQUEST validation and commit of section 4.3;
the Server Allocation Engine is not under src/. The requested address must
not be frozen and must not be held by another client; on success the client's
lease is committed (replacing any previous lease of the same client),
otherwise the result is none and the engine answers NAK without touching
storage. -/
def serverCommit (s : MemState) (cid : ClientId) (addr : Ipv4)
    (lt now : Nat) : Option MemState :=
  if s.frozen.contains addr then none
  else if s.leases.any fun l => l.address = addr ∧ l.client_id ≠ cid then none
  else some { s with
    leases := ⟨cid, addr, lt, now⟩ :: s.leases.filter fun l => l.client_id ≠ cid }

/-- Modelled from the spec: RELEASE (section 4.3) removes the client's lease
record without freezing the address. -/
def serverRelease (s : MemState) (cid : ClientId) : MemState :=
  { s with leases := s.leases.filter fun l => l.client_id ≠ cid }

/-- Modelled from the spec: DECLINE (section 4.3) marks the declared address
as frozen and invalidates any lease record pointing at it. -/
def serverDecline (s : MemState) (addr : Ipv4) : MemState :=
  { s with frozen := addr :: s.frozen,
           leases := s.leases.filter fun l => l.address ≠ addr }

/-- Modelled from the spec: the server-side expiry sweep (section 3) removes
leases whose time has run out. -/
def expireSweep (s : MemState) (now : Nat) : MemState :=
  { s with leases := s.leases.filter fun l => now < l.lease_start + l.lease_time }

/-- One lease-mutating event handled by the server engine. Offer bookkeeping
and pool scanning are omitted: they never touch committed leases. -/
inductive ServerEvent where
  | request (cid : ClientId) (addr : Ipv4) (lt now : Nat)
  | release (cid : ClientId)
  | decline (addr : Ipv4)
  | sweep (now : Nat)

/-- Dispatch of one server event against storage; a rejected REQUEST leaves
storage unchanged (the engine answers NAK). -/
def serverStep (s : MemState) : ServerEvent → MemState
  | .request cid addr lt now => (serverCommit s cid addr lt now).getD s
  | .release cid => serverRelease s cid
  | .decline addr => serverDecline s addr
  | .sweep now => expireSweep s now

/-- Lease exclusivity: any two committed leases on the same address belong to
the same client, and each client holds at most one committed lease. -/
def Exclusive (s : MemState) : Prop :=
  (∀ l1 ∈ s.leases, ∀ l2 ∈ s.leases, l1.address = l2.address →
    l1.client_id = l2.client_id) ∧
  (s.leases.map Lease.client_id).Nodup

/-- Embedding of the source mutator type of update_lease (storage.rs line
102): a `&mut FnMut(&mut Lease)` closure, that is a stateful transformer over
some mutable environment E that rewrites the lease in place. -/
def MutatorSrc (E : Type) : Type := E → Lease → E × Lease

/-- Modelled from the spec: the pure mutator form the spec's section 9 says
the lease-update operation is modeled with. -/
def MutatorSpec : Type := Lease → Lease

/-- Lifting of a pure spec mutator into the source mutator type: it ignores
and preserves the closure environment. -/
def liftMutator (f : MutatorSpec) {E : Type} : MutatorSrc E :=
  fun e l => (e, f l)

/-- A genuinely stateful source mutator: it stamps the lease_time with its
call counter and increments the counter, so successive calls on the same
lease return different leases. -/
def countingMutator : MutatorSrc Nat :=
  fun n l => (n + 1, { l with lease_time := n })

/-- Two successive applications of a source mutator to the same lease,
threading the closure environment from the first call into the second. -/
def applyTwice {E : Type} (m : MutatorSrc E) (e : E) (l : Lease) :
    Lease × Lease :=
  ((m e l).2, (m (m e l).1 l).2)

/-- A throwaway lease used to exercise concrete mutators. -/
def sampleLease : Lease := ⟨[1, 2], 42, 3600, 0⟩

/-- Modelled from the spec: the renewal timer T1, armed at 0.5 of lease_time
(sections 4.2 and 8); the client engine is not under src/. Delays are exact
rationals measured from the ACK that commits the lease. -/
def t1Delay (lease_time : Nat) : ℚ := (lease_time : ℚ) / 2

/-- Modelled from the spec: the rebinding timer T2, armed at 0.875 of
lease_time. -/
def t2Delay (lease_time : Nat) : ℚ := (lease_time : ℚ) * 7 / 8

/-- Modelled from the spec: lease expiry, the full lease_time after commit. -/
def leaseExpiryDelay (lease_time : Nat) : ℚ := (lease_time : ℚ)

/-! ## Supporting lemmas -/

theorem natToBytesBE_length (w n : Nat) : (natToBytesBE w n).length = w := by
  induction w generalizing n with
  | zero => rfl
  | succ w ih => simp [natToBytesBE, ih]

theorem bytesToNatBE_append_single (bs : List Nat) (b : Nat) :
    bytesToNatBE (bs ++ [b]) = bytesToNatBE bs * 256 + b := by
  simp [bytesToNatBE, List.foldl_append]

theorem bytesToNatBE_natToBytesBE (w n : Nat) (h : n < 256 ^ w) :
    bytesToNatBE (natToBytesBE w n) = n := by
  induction w generalizing n with
  | zero =>
    simp [natToBytesBE, bytesToNatBE]
    omega
  | succ w ih =>
    have hdiv : n / 256 < 256 ^ w := by
      rw [Nat.div_lt_iff_lt_mul (by norm_num)]
      calc n < 256 ^ (w + 1) := h
        _ = 256 ^ w * 256 := by ring
    rw [natToBytesBE, bytesToNatBE_append_single, ih _ hdiv]
    omega

theorem drop_chain {α : Type} (off2 : Nat) {l b t : List α} {off k : Nat}
    (hd : l.drop off = b ++ t) (hb : b.length = k) (hoff : off2 = off + k) :
    l.drop off2 = t := by
  subst hoff
  rw [← hb, ← List.drop_drop, hd, List.drop_left]

theorem length_pair (a b : Nat) : ([a, b]).length = 2 := rfl

theorem fieldAt_of_drop {l b t : List Nat} {off w : Nat}
    (hd : l.drop off = b ++ t) (hb : b.length = w) :
    fieldAt l off w = b := by
  rw [fieldAt, hd, List.take_left' hb]

theorem bytesToNatBE_single (b : Nat) : bytesToNatBE [b] = b := by
  simp [bytesToNatBE]

theorem fromU8_toU8 (op : OperationCode) : OperationCode.fromU8 op.toU8 = op := by
  cases op <;> rfl

theorem testBit_flags (bc : Bool) :
    Nat.testBit (if bc then 128 else 0) 7 = bc := by
  cases bc <;> decide

/-- Parsing the canonical option serialization of well-formed options returns
exactly those options: one TLV entry per option, terminated by the end code. -/
theorem parseOptions_encodeOptions (opts : List OptionField)
    (h : ∀ o ∈ opts, o.wellFormed) :
    parseOptions (encodeOptions opts) = .ok opts := by
  induction opts with
  | nil => simp [encodeOptions, parseOptions, padCode, endCode]
  | cons o os ih =>
    obtain ⟨hc0, hc255, _hlen, _hbytes⟩ := h o (List.mem_cons_self o os)
    have ih2 := ih fun o ho => h o (List.mem_cons_of_mem _ ho)
    have hstream : encodeOptions (o :: os) =
        o.code :: o.value.length :: (o.value ++ encodeOptions os) := by
      simp [encodeOptions]
    rw [hstream, parseOptions]
    have h1 : ¬ (o.code = padCode) := by simp [padCode]; omega
    have h2 : ¬ (o.code = endCode) := by simp [endCode]; omega
    simp only [h1, h2, if_false]
    have hle : o.value.length ≤ (o.value ++ encodeOptions os).length := by
      simp
    simp only [hle, if_true]
    rw [List.drop_left' rfl, ih2, List.take_left' rfl]

theorem encode_length_ge (m : Message)
    (hch : m.chaddr.length = 16) (hsn : m.sname.length = 64)
    (hfi : m.file.length = 128) :
    ¬ ((encode m).length < bootpHeaderSize) := by
  simp [encode, natToBytesBE_length, hch, hsn, hfi, magicCookie, encodeOptions,
    bootpHeaderSize]
  omega

/-- Round-trip of the codec on well-formed messages: decoding the encoding of
a message returns the message unchanged. -/
theorem decode_encode_eq (m : Message) (hwf : m.wellFormed) :
    decode (encode m) = .ok m := by
  obtain ⟨hhtype, hhlen, hhops, hxid, hsecs, hci, hyi, hsi, hgi,
    hch, -, hsn, -, hfi, -, hopts⟩ := hwf
  have henc : encode m =
      [m.op.toU8] ++ ([m.htype] ++ ([m.hlen] ++ ([m.hops] ++
      (natToBytesBE 4 m.xid ++ (natToBytesBE 2 m.secs ++
      ([if m.broadcast then 128 else 0, 0] ++
      (natToBytesBE 4 m.ciaddr ++ (natToBytesBE 4 m.yiaddr ++
      (natToBytesBE 4 m.siaddr ++ (natToBytesBE 4 m.giaddr ++
      (m.chaddr ++ (m.sname ++ (m.file ++
      (magicCookie ++ encodeOptions m.options)))))))))))))) := by
    simp [encode, List.append_assoc]
  have h0 := (List.drop_zero (encode m)).trans henc
  have h1 := drop_chain 1 h0 (List.length_singleton _) (by norm_num)
  have h2 := drop_chain 2 h1 (List.length_singleton _) (by norm_num)
  have h3 := drop_chain 3 h2 (List.length_singleton _) (by norm_num)
  have h4 := drop_chain 4 h3 (List.length_singleton _) (by norm_num)
  have h8 := drop_chain 8 h4 (natToBytesBE_length 4 m.xid) (by norm_num)
  have h10 := drop_chain 10 h8 (natToBytesBE_length 2 m.secs) (by norm_num)
  have h12 := drop_chain 12 h10 (length_pair _ _) (by norm_num)
  have h16 := drop_chain 16 h12 (natToBytesBE_length 4 m.ciaddr) (by norm_num)
  have h20 := drop_chain 20 h16 (natToBytesBE_length 4 m.yiaddr) (by norm_num)
  have h24 := drop_chain 24 h20 (natToBytesBE_length 4 m.siaddr) (by norm_num)
  have h28 := drop_chain 28 h24 (natToBytesBE_length 4 m.giaddr) (by norm_num)
  have h44 := drop_chain 44 h28 hch (by norm_num)
  have h108 := drop_chain 108 h44 hsn (by norm_num)
  have h236 : (encode m).drop bootpHeaderSize =
      magicCookie ++ encodeOptions m.options :=
    drop_chain bootpHeaderSize h108 hfi (by norm_num [bootpHeaderSize])
  have f0 : fieldAt (encode m) 0 1 = [m.op.toU8] := fieldAt_of_drop h0 rfl
  have f1 : fieldAt (encode m) 1 1 = [m.htype] := fieldAt_of_drop h1 rfl
  have f2 : fieldAt (encode m) 2 1 = [m.hlen] := fieldAt_of_drop h2 rfl
  have f3 : fieldAt (encode m) 3 1 = [m.hops] := fieldAt_of_drop h3 rfl
  have f4 := fieldAt_of_drop h4 (natToBytesBE_length 4 m.xid)
  have f8 := fieldAt_of_drop h8 (natToBytesBE_length 2 m.secs)
  have f10 : fieldAt (encode m) 10 1 = [if m.broadcast then 128 else 0] := by
    rw [fieldAt, h10]; rfl
  have f12 := fieldAt_of_drop h12 (natToBytesBE_length 4 m.ciaddr)
  have f16 := fieldAt_of_drop h16 (natToBytesBE_length 4 m.yiaddr)
  have f20 := fieldAt_of_drop h20 (natToBytesBE_length 4 m.siaddr)
  have f24 := fieldAt_of_drop h24 (natToBytesBE_length 4 m.giaddr)
  have f28 := fieldAt_of_drop h28 hch
  have f44 := fieldAt_of_drop h44 hsn
  have f108 := fieldAt_of_drop h108 hfi
  have htake : (magicCookie ++ encodeOptions m.options).take 4 = magicCookie :=
    List.take_left' rfl
  have hdrop4 : (magicCookie ++ encodeOptions m.options).drop 4 =
      encodeOptions m.options :=
    List.drop_left' rfl
  rw [decode, if_neg (encode_length_ge m hch hsn hfi), h236, htake, hdrop4,
    if_neg (by simp : ¬ (magicCookie ≠ magicCookie)),
    parseOptions_encodeOptions m.options hopts]
  simp only [ne_eq, not_true_eq_false, if_false, ite_false,
    f0, f1, f2, f3, f4, f8, f10, f12, f16, f20, f24, f28, f44, f108,
    bytesToNatBE_single, fromU8_toU8, testBit_flags,
    bytesToNatBE_natToBytesBE 4 m.xid hxid,
    bytesToNatBE_natToBytesBE 2 m.secs hsecs,
    bytesToNatBE_natToBytesBE 4 m.ciaddr hci,
    bytesToNatBE_natToBytesBE 4 m.yiaddr hyi,
    bytesToNatBE_natToBytesBE 4 m.siaddr hsi,
    bytesToNatBE_natToBytesBE 4 m.giaddr hgi]

theorem Exclusive.of_sublist {s s' : MemState}
    (hsub : s'.leases.Sublist s.leases) (h : Exclusive s) : Exclusive s' := by
  refine ⟨fun l1 h1 l2 h2 => h.1 l1 (hsub.mem h1) l2 (hsub.mem h2), ?_⟩
  exact h.2.sublist (hsub.map Lease.client_id)

theorem Exclusive.commit {s s' : MemState} (cid : ClientId) (addr : Ipv4)
    (lt now : Nat) (h : Exclusive s)
    (hc : serverCommit s cid addr lt now = some s') : Exclusive s' := by
  by_cases hfz : s.frozen.contains addr = true
  · rw [serverCommit, if_pos hfz] at hc
    exact absurd hc (by simp)
  rw [serverCommit, if_neg hfz] at hc
  by_cases hheld : (s.leases.any fun l => l.address = addr ∧ l.client_id ≠ cid) = true
  · rw [if_pos hheld] at hc
    exact absurd hc (by simp)
  rw [if_neg hheld] at hc
  injection hc with hc
  subst hc
  have hnotheld : ∀ l ∈ s.leases, l.address = addr → l.client_id = cid := by
    intro l hl ha
    by_contra hne
    exact hheld (List.any_eq_true.mpr ⟨l, hl, by simp [ha, hne]⟩)
  constructor
  · intro l1 h1 l2 h2 haddr
    simp only [List.mem_cons, List.mem_filter] at h1 h2
    rcases h1 with h1 | ⟨h1m, h1f⟩ <;> rcases h2 with h2 | ⟨h2m, h2f⟩
    · rw [h1, h2]
    · subst h1
      simp only at haddr ⊢
      exact (hnotheld l2 h2m haddr.symm).symm
    · subst h2
      simp only at haddr ⊢
      exact hnotheld l1 h1m haddr
    · exact h.1 l1 h1m l2 h2m haddr
  · simp only [List.map_cons, List.nodup_cons]
    constructor
    · intro hmem
      obtain ⟨l, hl, hcid⟩ := List.mem_map.mp hmem
      have := (List.mem_filter.mp hl).2
      simp [hcid] at this
    · exact h.2.sublist ((List.filter_sublist _).map Lease.client_id)

theorem Exclusive.step {s : MemState} (ev : ServerEvent) (h : Exclusive s) :
    Exclusive (serverStep s ev) := by
  cases ev with
  | request cid addr lt now =>
    cases hc : serverCommit s cid addr lt now with
    | none => rw [serverStep, hc]; exact h
    | some s' => rw [serverStep, hc]; exact Exclusive.commit cid addr lt now h hc
  | release cid =>
    exact Exclusive.of_sublist (s := s) (List.filter_sublist _) h
  | decline addr =>
    exact Exclusive.of_sublist (s := s) (List.filter_sublist _) h
  | sweep now =>
    exact Exclusive.of_sublist (s := s) (List.filter_sublist _) h

theorem Exclusive.empty : Exclusive MemState.empty := by
  constructor
  · intro l1 h1
    simp [MemState.empty] at h1
  · simp [MemState.empty]

/-! ## Claims -/

/-- C1: for every Message m whose option codes are unique and whose options
are within length limits (together with the field-range and field-width
constraints that the Rust Message type enforces at the type level, collected
in Message.wellFormed), decoding the encoding of m returns m exactly. -/
theorem C1_decode_encode_roundtrip (m : Message) (hwf : m.wellFormed)
    (_huniq : (m.options.map OptionField.code).Nodup) :
    decode (encode m) = .ok m :=
  decode_encode_eq m hwf

/-- C1 witness: the round-trip law instantiated at a concrete well-formed
message with distinct option codes. -/
theorem C1_witness :
    sampleMessage.wellFormed ∧
      (sampleMessage.options.map OptionField.code).Nodup ∧
      decode (encode sampleMessage) = .ok sampleMessage :=
  ⟨by decide, by decide,
    C1_decode_encode_roundtrip sampleMessage (by decide) (by decide)⟩

/-- C2: lease exclusivity is an invariant of committed storage state. In
every state reachable from empty storage by the server engine's
lease-mutating events (REQUEST commit, RELEASE, DECLINE, expiry sweep), any
two committed leases on the same address belong to the same client, and each
client_id holds at most one committed (hence at most one active) lease. -/
theorem C2_lease_exclusivity (evs : List ServerEvent) :
    Exclusive (evs.foldl serverStep MemState.empty) := by
  suffices h : ∀ s : MemState, Exclusive s → Exclusive (evs.foldl serverStep s) from
    h MemState.empty Exclusive.empty
  induction evs with
  | nil => exact fun s hs => hs
  | cons e es ih =>
    intro s hs
    exact ih (serverStep s e) (Exclusive.step e hs)

/-- C3: decode is total by construction (it is a Lean function on arbitrary
byte lists); every buffer shorter than the fixed BOOTP header is rejected
with a CodecError, and a buffer whose option area reaches an option whose
declared length runs past the buffer end yields exactly
CodecError.Truncated. -/
theorem C3_decode_safety :
    (∀ buf : List Nat, buf.length < bootpHeaderSize →
      ∃ e, decode buf = .error e) ∧
    (∀ (hdr : List Nat) (c len : Nat) (tail : List Nat),
      hdr.length = bootpHeaderSize → 0 < c → c < 255 → tail.length < len →
      decode (hdr ++ (magicCookie ++ (c :: len :: tail))) = .error .Truncated) := by
  constructor
  · intro buf h
    exact ⟨.TooShort, by rw [decode, if_pos h]⟩
  · intro hdr c len tail hh hc0 hc255 htail
    have hdrop : (hdr ++ (magicCookie ++ (c :: len :: tail))).drop bootpHeaderSize =
        magicCookie ++ (c :: len :: tail) := List.drop_left' hh
    have hlen : ¬ ((hdr ++ (magicCookie ++ (c :: len :: tail))).length <
        bootpHeaderSize) := by
      simp [hh, bootpHeaderSize]
    have hparse : parseOptions (c :: len :: tail) = .error .Truncated := by
      rw [parseOptions]
      have h1 : ¬ (c = padCode) := by simp [padCode]; omega
      have h2 : ¬ (c = endCode) := by simp [endCode]; omega
      simp only [h1, h2, if_false]
      rw [if_neg (by omega)]
    have htake : (magicCookie ++ (c :: len :: tail)).take 4 = magicCookie :=
      List.take_left' rfl
    have hdrop4 : (magicCookie ++ (c :: len :: tail)).drop 4 = c :: len :: tail :=
      List.drop_left' rfl
    rw [decode, if_neg hlen, hdrop, htake,
      if_neg (by simp : ¬ (magicCookie ≠ magicCookie)), hdrop4, hparse]

/-- C3 witness: the empty buffer is rejected, and a valid header followed by
the cookie and an option declaring one byte with none present yields exactly
CodecError.Truncated. -/
theorem C3_witness :
    (∃ e, decode [] = .error e) ∧
      decode (List.replicate 236 0 ++ (magicCookie ++ (53 :: 1 :: []))) =
        .error .Truncated :=
  ⟨C3_decode_safety.1 [] (by decide),
   C3_decode_safety.2 (List.replicate 236 0) 53 1 []
     (by rw [List.length_replicate, bootpHeaderSize]) (by decide) (by decide)
     (by decide)⟩

set_option maxRecDepth 4096 in
/-- C4: the conversion from a byte to an operation code is total and
deterministic (it is a function); it yields BootRequest exactly on 1,
BootReply exactly on 2, and Undefined on every other byte. -/
theorem C4_operation_code_from_u8 :
    ∀ b : Nat, b < 256 →
      ((OperationCode.fromU8 b = .BootRequest ↔ b = 1) ∧
       (OperationCode.fromU8 b = .BootReply ↔ b = 2) ∧
       (b ≠ 1 → b ≠ 2 → OperationCode.fromU8 b = .Undefined)) := by
  decide

/-- C4 witness: the characterization instantiated at byte 1. -/
theorem C4_witness :
    1 < 256 ∧
      ((OperationCode.fromU8 1 = .BootRequest ↔ 1 = 1) ∧
       (OperationCode.fromU8 1 = .BootReply ↔ 1 = 2) ∧
       (1 ≠ 1 → 1 ≠ 2 → OperationCode.fromU8 1 = .Undefined)) :=
  ⟨by decide, C4_operation_code_from_u8 1 (by decide)⟩

/-- C5: the storage error type has exactly the nine kinds GetClient,
AddClient, DeleteClient, GetLease, AddLease, UpdateLease, CheckFrozen,
AddFrozen and Other: every storage error is mkStorageError of one of the nine
kind indices and a description string (no further kinds), and the nine
constructors are pairwise distinct because kindOf recovers the index. -/
theorem C5_storage_error_kinds :
    (∀ e : StorageError, ∃ (k : Fin 9) (s : String), e = mkStorageError k s) ∧
    (∀ (k : Fin 9) (s : String), (mkStorageError k s).kindOf = k) ∧
    (∀ (k : Fin 9) (s : String), (mkStorageError k s).descOf = s) := by
  refine ⟨fun e => ?_, fun k s => ?_, fun k s => ?_⟩
  · cases e with
    | GetClient s => exact ⟨0, s, rfl⟩
    | AddClient s => exact ⟨1, s, rfl⟩
    | DeleteClient s => exact ⟨2, s, rfl⟩
    | GetLease s => exact ⟨3, s, rfl⟩
    | AddLease s => exact ⟨4, s, rfl⟩
    | UpdateLease s => exact ⟨5, s, rfl⟩
    | CheckFrozen s => exact ⟨6, s, rfl⟩
    | AddFrozen s => exact ⟨7, s, rfl⟩
    | Other s => exact ⟨8, s, rfl⟩
  · fin_cases k <;> rfl
  · fin_cases k <;> rfl

/-- C6: the storage collaborator contract consists of exactly the eight
operations get_client, add_client, delete_client, get_lease, add_lease,
update_lease, check_frozen and add_frozen: every Storage value is determined
by those eight fields, whose types carry the stated result shapes (optional
client id, optional Lease, bool, or no value, each behind a possible
StorageError). -/
theorem C6_storage_contract_shape :
    ∀ (S : Type) (st : Storage S),
      st = ⟨st.get_client, st.add_client, st.delete_client, st.get_lease,
            st.add_lease, st.update_lease, st.check_frozen, st.add_frozen⟩ :=
  fun _ _ => rfl

/-- C7 counterexample: the source mutator type of update_lease is a stateful
FnMut closure, not a pure Lease -> Lease function: countingMutator, applied
twice to the very same lease, returns two different leases, which no fixed
pure mutator does. -/
theorem C7_counterexample :
    (applyTwice countingMutator 0 sampleLease).1 ≠
      (applyTwice countingMutator 0 sampleLease).2 := by
  decide

/-- C7 (amended): the mutator argument of the lease-update operation is a
general side-effecting closure (FnMut over a mutable environment), strictly
more general than the pure Lease -> Lease form the spec recommends: every
pure mutator lifts into the closure type preserving the environment and
acting identically on repeated calls, while the closure type also contains
mutators, such as countingMutator, whose two successive applications to the
same lease disagree. -/
theorem C7_mutator_is_stateful_closure :
    (∀ (f : MutatorSpec) (E : Type) (e : E) (l : Lease),
      liftMutator f e l = (e, f l)) ∧
    (∀ (f : MutatorSpec) (E : Type) (e : E) (l : Lease),
      (applyTwice (liftMutator f) e l).1 = (applyTwice (liftMutator f) e l).2) ∧
    ((applyTwice countingMutator 0 sampleLease).1 ≠
      (applyTwice countingMutator 0 sampleLease).2) :=
  ⟨fun _ _ _ _ => rfl, fun _ _ _ _ => rfl, by decide⟩

/-- C8: an Ack value carries exactly the leased IPv4 address, a lease_time in
seconds as a 32-bit unsigned integer, and the human-readable diagnostic
message string: Ack is in bijection with such triples. -/
theorem C8_ack_fields :
    Function.Bijective
      (fun a : Ack => (a.address, a.lease_time, a.message)) := by
  constructor
  · intro a b h
    cases a
    cases b
    simpa using h
  · intro t
    exact ⟨⟨t.1, t.2.1, t.2.2⟩, rfl⟩

/-- C9: for every accepted lease with lease_time > 0, T1 is armed at exactly
0.5 of lease_time, T2 at exactly 0.875 of lease_time, and the fire times
satisfy T1 < T2 < lease expiry. -/
theorem C9_timer_ordering :
    ∀ lt : Nat, 0 < lt →
      (t1Delay lt = (1 / 2 : ℚ) * lt ∧
       t2Delay lt = (7 / 8 : ℚ) * lt ∧
       t1Delay lt < t2Delay lt ∧
       t2Delay lt < leaseExpiryDelay lt) := by
  intro lt h
  have hq : (0 : ℚ) < lt := by exact_mod_cast h
  refine ⟨by rw [t1Delay]; ring, by rw [t2Delay]; ring, ?_, ?_⟩
  · rw [t1Delay, t2Delay]
    linarith
  · rw [t2Delay, leaseExpiryDelay]
    linarith

/-- C9 witness: the timer law instantiated at a one-second lease. -/
theorem C9_witness :
    0 < 1 ∧
      (t1Delay 1 = (1 / 2 : ℚ) * (1 : Nat) ∧
       t2Delay 1 = (7 / 8 : ℚ) * (1 : Nat) ∧
       t1Delay 1 < t2Delay 1 ∧
       t2Delay 1 < leaseExpiryDelay 1) :=
  ⟨by decide, C9_timer_ordering 1 (by decide)⟩

/-- C10: the read operations get_client, get_lease and check_frozen take the
storage by shared reference (&self in storage.rs): running any read operation
against any storage implementation leaves the storage state exactly as it
was; only the &mut self operations can continue with a different state. -/
theorem C10_reads_preserve_state :
    ∀ (S : Type) (st : Storage S) (op : StorageOp) (s s' : S)
      (v : StorageValue),
      op.isRead = true → runOp st op s = .ok (s', v) → s' = s := by
  intro S st op s s' v hread hrun
  cases op with
  | getClient a =>
    rcases hcl : st.get_client s a with e | x <;> rw [runOp, hcl] at hrun
    · exact absurd hrun (by simp [Except.map])
    · simp [Except.map] at hrun
      exact hrun.1.symm
  | getLease cid =>
    rcases hcl : st.get_lease s cid with e | x <;> rw [runOp, hcl] at hrun
    · exact absurd hrun (by simp [Except.map])
    · simp [Except.map] at hrun
      exact hrun.1.symm
  | checkFrozen a =>
    rcases hcl : st.check_frozen s a with e | x <;> rw [runOp, hcl] at hrun
    · exact absurd hrun (by simp [Except.map])
    · simp [Except.map] at hrun
      exact hrun.1.symm
  | addClient a cid => exact absurd hread (by simp [StorageOp.isRead])
  | deleteClient a => exact absurd hread (by simp [StorageOp.isRead])
  | addLease cid l => exact absurd hread (by simp [StorageOp.isRead])
  | updateLease cid f => exact absurd hread (by simp [StorageOp.isRead])
  | addFrozen a => exact absurd hread (by simp [StorageOp.isRead])

/-- C10 witness: get_client run against the in-memory reference storage on
the empty state, with the frame conclusion drawn from the theorem. -/
theorem C10_witness :
    (StorageOp.getClient 0).isRead = true ∧ MemState.empty = MemState.empty :=
  ⟨rfl, C10_reads_preserve_state MemState memStorage (.getClient 0)
    MemState.empty MemState.empty (.clientId none) rfl rfl⟩

end DhcpSpec
